import Mathlib

/-!
Verification of the repoaudit-lite NPD (null-pointer-dereference) detector.

The development shallowly embeds the core pipeline of the repository:
`parser.py` (syntax-tree traversal extracting sentinel assignments and
attribute accesses), `analyzer.py` (candidate matching and orchestration),
`llm_client.py` (oracle gateway response handling) and `main.py`
(severity ranking and exit codes).  Syntax trees are modelled as rose
trees carrying the tree-sitter node fields the code reads: `type`,
`text`, `start_point[0]` (row), `end_point[0]` (endRow) and `children`.
-/

open List

/-- A tree-sitter node as consumed by `parser.py`: a `type` tag, the node
`text`, the 0-based start row (`start_point[0]`), the 0-based end row
(`end_point[0]`), and the ordered list of children. -/
inductive TSNode where
  | node (ty : String) (text : String) (row : Nat) (endRow : Nat) (children : List TSNode)
deriving Repr

def TSNode.ty : TSNode → String
  | .node t _ _ _ _ => t

def TSNode.text : TSNode → String
  | .node _ x _ _ _ => x

def TSNode.row : TSNode → Nat
  | .node _ _ r _ _ => r

def TSNode.endRow : TSNode → Nat
  | .node _ _ _ e _ => e

def TSNode.children : TSNode → List TSNode
  | .node _ _ _ _ ch => ch

/- Generic pre-order collector over a tree: the contribution of the node
itself (`step`), followed by the contributions of the children in order.
Every traversal in `parser.py` (`visit` appending to `results`, then
recursing into `node.children`) has this shape. -/
mutual
def collectPre {β : Type} (step : TSNode → List β) : TSNode → List β
  | .node ty tx r er ch => step (.node ty tx r er ch) ++ collectPreList step ch

def collectPreList {β : Type} (step : TSNode → List β) : List TSNode → List β
  | [] => []
  | c :: cs => collectPre step c ++ collectPreList step cs
end

/-- All nodes of a tree in pre-order (the set of nodes `visit` reaches). -/
def allNodes (t : TSNode) : List TSNode := collectPre (fun n => [n]) t

/-- All nodes of the subtrees rooted at a list of nodes. -/
def allNodesList (l : List TSNode) : List TSNode := collectPreList (fun n => [n]) l

/-- A sentinel-assignment ("source") event from `find_null_assignments`:
dict `{'variable': ..., 'line': ...}` in the source. -/
structure SourceEvent where
  var : String
  line : Nat
deriving DecidableEq, Repr

/-- A hazardous-access ("sink") event from `find_attribute_access`:
dict `{'variable': ..., 'line': ...}` in the source. -/
structure SinkEvent where
  var : String
  line : Nat
deriving DecidableEq, Repr

/-- Per-node contribution of `CodeParser.find_null_assignments`
(parser.py lines 61-77): on an `assignment` node, `has_none` records
whether some direct child has type `none`, and `var_node` is the last
direct child of type `identifier` (the loop overwrites it without
breaking); when both are found, one event is emitted at the variable
node's line. -/
def null_assign_step (n : TSNode) : List SourceEvent :=
  if n.ty = "assignment" then
    let has_none := n.children.any (fun c => c.ty = "none")
    let var_node := n.children.foldl (fun acc c => if c.ty = "identifier" then some c else acc) none
    match var_node with
    | some v => if has_none then [{ var := v.text, line := v.row + 1 }] else []
    | none => []
  else []

/-- The traversal `CodeParser.find_null_assignments` (parser.py lines 57-83): pre-order
traversal applying `null_assign_step` at every node. -/
def find_null_assignments (func_node : TSNode) : List SourceEvent :=
  collectPre null_assign_step func_node

/-- Deduplication key used by `find_attribute_access`: the Python tuple
`(var_name, line)`. -/
abbrev SeenKey := String × Nat

/-- The state threaded through `find_attribute_access`: the `results`
list and the `seen` key set. -/
abbrev FAAState := List SinkEvent × List SeenKey

/-- The per-node body of the `visit` closure of
`CodeParser.find_attribute_access` (parser.py lines 90-105): at an
`attribute` node the inner loop takes the first direct child of type
`identifier` (then breaks) and appends an event at that child's line
unless its `(variable, line)` key was already seen. -/
def faa_step (ty : String) (ch : List TSNode) (st : FAAState) : FAAState :=
  if ty = "attribute" then
    match ch.find? (fun c => c.ty = "identifier") with
    | some c =>
      if (c.text, c.row + 1) ∈ st.2 then st
      else (st.1 ++ [{ var := c.text, line := c.row + 1 }], (c.text, c.row + 1) :: st.2)
    | none => st
  else st

/- `CodeParser.find_attribute_access` (parser.py lines 85-111), embedded
faithfully with explicit state: the node's own step, then recursion into
all children unconditionally. -/
mutual
def faa_visit : TSNode → FAAState → FAAState
  | .node ty _ _ _ ch, st => faa_visit_list ch (faa_step ty ch st)

def faa_visit_list : List TSNode → FAAState → FAAState
  | [], st => st
  | c :: cs, st => faa_visit_list cs (faa_visit c st)
end

def find_attribute_access (func_node : TSNode) : List SinkEvent :=
  (faa_visit func_node ([], [])).1

/-- The per-node contribution of `find_attribute_access` before
deduplication: the first direct `identifier` child of an `attribute`
node, at that child's line. -/
def attr_step (n : TSNode) : List SinkEvent :=
  if n.ty = "attribute" then
    match n.children.find? (fun c => c.ty = "identifier") with
    | some c => [{ var := c.text, line := c.row + 1 }]
    | none => []
  else []

/-- Left-to-right deduplication by `(variable, line)` key, with the set of
already-seen keys threaded through, mirroring the `seen` set of
`find_attribute_access`. -/
def dedupScan (seen : List SeenKey) : List SinkEvent → List SinkEvent × List SeenKey
  | [] => ([], seen)
  | e :: es =>
    if (e.var, e.line) ∈ seen then dedupScan seen es
    else
      let rest := dedupScan ((e.var, e.line) :: seen) es
      (e :: rest.1, rest.2)

/-- A function unit produced by `CodeParser.extract_functions`
(parser.py lines 27-55): name, 1-based start/end lines, the sliced
function text, and the function-definition node. -/
structure FuncUnit where
  name : String
  start_line : Nat
  end_line : Nat
  code : String
  node : TSNode

/-- Per-node contribution of `extract_functions`: a `function_definition`
node yields one unit named after its first direct `identifier` child
(the loop breaks after the first), with `code` the joined source lines
`lines[start:end+1]`. -/
def func_step (lines : List String) (n : TSNode) : List FuncUnit :=
  if n.ty = "function_definition" then
    match n.children.find? (fun c => c.ty = "identifier") with
    | some c =>
      [{ name := c.text
         start_line := n.row + 1
         end_line := n.endRow + 1
         code := String.intercalate "\n" ((lines.drop n.row).take (n.endRow + 1 - n.row))
         node := n }]
    | none => []
  else []

/-- The traversal `CodeParser.extract_functions`: pre-order, collecting a unit
for every function-definition node (nested definitions included). -/
def extract_functions (tree : TSNode) (lines : List String) : List FuncUnit :=
  collectPre (func_step lines) tree

/-- The candidate-matching loop of `NPDAnalyzer._analyze_function`
(analyzer.py lines 103-108): for every null assignment and every
attribute access with the same variable and `null_line < attr_line`,
append the pair. -/
def matchCandidates (null_assigns : List SourceEvent) (attr_accesses : List SinkEvent) :
    List (SourceEvent × SinkEvent) :=
  null_assigns.flatMap (fun na =>
    attr_accesses.filterMap (fun aa =>
      if na.var = aa.var ∧ na.line < aa.line then some (na, aa) else none))

/-- The structured reply shape expected from the oracle
(llm_client.py prompt, spec section 6): the three required fields plus
the free-text pass-through fields, each possibly absent. -/
structure ReplyObj where
  has_dangerous_path : Option Bool
  is_bug : Option Bool
  severity : Option String
  path_description : Option String
  trigger_condition : Option String
  reason : Option String
deriving DecidableEq, Repr

/-- Outcome of one oracle call as observed by
`LLMClient.analyze_npd_path`: the `Generation.call` raised
(`callError`), returned a non-200 status (`badStatus`), returned 200 but
the reply text failed `json.loads` (`parseError`), or parsed into a
structured reply (`parsed`). -/
inductive OracleOutcome where
  | callError (msg : String)
  | badStatus (code : Nat) (msg : String)
  | parseError (msg : String)
  | parsed (r : ReplyObj)
deriving DecidableEq, Repr

/-- An outcome on which the oracle call failed (every branch of
`analyze_npd_path` other than a successfully parsed 200 reply). -/
def OracleOutcome.isFailure : OracleOutcome → Bool
  | .parsed _ => false
  | _ => true

/-- The verdict dict returned by `LLMClient.analyze_npd_path`: after
field validation the three required fields are always present; the
free-text fields are whatever the reply carried; `error` is set only on
the failure branches. -/
structure Verdict where
  has_dangerous_path : Bool
  is_bug : Bool
  severity : String
  path_description : Option String
  trigger_condition : Option String
  reason : Option String
  error : Option String
deriving DecidableEq, Repr

/-- Response handling of `LLMClient.analyze_npd_path` (llm_client.py lines
98-148): a parsed reply has each absent required field filled with its
default (`False` for `has_dangerous_path` and `is_bug`, `"Low"` for
`severity`); a non-200 status, a JSON decode failure, and a raised call
all return the default no-bug Low verdict carrying an error message. -/
def analyze_npd_path : OracleOutcome → Verdict
  | .parsed r =>
    { has_dangerous_path := r.has_dangerous_path.getD false
      is_bug := r.is_bug.getD false
      severity := r.severity.getD "Low"
      path_description := r.path_description
      trigger_condition := r.trigger_condition
      reason := r.reason
      error := none }
  | .badStatus code msg =>
    { has_dangerous_path := false, is_bug := false, severity := "Low"
      path_description := none, trigger_condition := none, reason := none
      error := some ("API返回错误码: " ++ toString code ++ ", 消息: " ++ msg) }
  | .parseError msg =>
    { has_dangerous_path := false, is_bug := false, severity := "Low"
      path_description := none, trigger_condition := none, reason := none
      error := some ("JSON解析失败: " ++ msg) }
  | .callError msg =>
    { has_dangerous_path := false, is_bug := false, severity := "Low"
      path_description := none, trigger_condition := none, reason := none
      error := some msg }

/-- A bug record as built by `NPDAnalyzer._analyze_function`
(analyzer.py lines 131-143). -/
structure Bug where
  bug_type : String
  file : String
  function : String
  var : String
  null_line : Nat
  use_line : Nat
  severity : String
  description : String
  trigger_condition : String
  reason : String
  code_snippet : String
deriving DecidableEq, Repr

/-- Builds the bug dict of analyzer.py lines 131-143 from a confirmed
candidate and its verdict (`severity` is always present in the verdict,
so the Python `.get('severity', 'Medium')` default never fires). -/
def mkBug (file_path : String) (func : FuncUnit) (p : SourceEvent × SinkEvent)
    (v : Verdict) : Bug :=
  { bug_type := "Null Pointer Dereference (NPD)"
    file := file_path
    function := func.name
    var := p.1.var
    null_line := p.1.line
    use_line := p.2.line
    severity := v.severity
    description := v.path_description.getD ""
    trigger_condition := v.trigger_condition.getD "无"
    reason := v.reason.getD ""
    code_snippet := func.code }

/-- One oracle request as issued by `_analyze_function` step 4: the
function body text, the variable and both lines
(`self.llm.analyze_npd_path(func['code'], var_name, null_line, use_line)`). -/
structure OracleCall where
  func_code : String
  var : String
  null_line : Nat
  use_line : Nat
deriving DecidableEq, Repr

/-- The function `NPDAnalyzer._analyze_function` (analyzer.py lines 65-151),
parameterised by the oracle `(func_code, var, null_line, use_line) ↦
verdict`.  Returns the bug list together with the list of oracle calls
made.  The early returns on empty null-assignment list, empty
attribute-access list and empty match list are kept from the source. -/
def analyze_function (oracle : String → String → Nat → Nat → Verdict)
    (func : FuncUnit) (file_path : String) : List Bug × List OracleCall :=
  let null_assigns := find_null_assignments func.node
  if null_assigns.isEmpty then ([], [])
  else
    let attr_accesses := find_attribute_access func.node
    if attr_accesses.isEmpty then ([], [])
    else
      let pairs := matchCandidates null_assigns attr_accesses
      if pairs.isEmpty then ([], [])
      else
        (pairs.filterMap (fun p =>
           let v := oracle func.code p.1.var p.1.line p.2.line
           if v.is_bug then some (mkBug file_path func p v) else none),
         pairs.map (fun p =>
           { func_code := func.code, var := p.1.var
             null_line := p.1.line, use_line := p.2.line }))

/-- The candidates of one function unit (the `matches` list of
`_analyze_function` step 3). -/
def matches_of (func : FuncUnit) : List (SourceEvent × SinkEvent) :=
  matchCandidates (find_null_assignments func.node) (find_attribute_access func.node)

/-- The function `NPDAnalyzer.analyze_file` (analyzer.py lines 27-63): extract all
function units, run `_analyze_function` on each in order, and
concatenate the per-function bug lists (`file_bugs.extend`); the oracle
calls accumulate the same way. -/
def analyze_file (oracle : String → String → Nat → Nat → Verdict)
    (tree : TSNode) (lines : List String) (file_path : String) :
    List Bug × List OracleCall :=
  let functions := extract_functions tree lines
  (functions.flatMap (fun f => (analyze_function oracle f file_path).1),
   functions.flatMap (fun f => (analyze_function oracle f file_path).2))

/-- The severity ranking key of main.py lines 140-141:
`severity_order.get(b['severity'], 4)` over
`{'Critical': 0, 'High': 1, 'Medium': 2, 'Low': 3}`. -/
def severity_order (s : String) : Nat :=
  if s = "Critical" then 0
  else if s = "High" then 1
  else if s = "Medium" then 2
  else if s = "Low" then 3
  else 4

/-- Insert `x` into `l` strictly after every element whose key is
smaller, and before the first element whose key is greater or equal:
the insertion step of a stable sort. -/
def insertLe {α : Type} (key : α → Nat) (x : α) : List α → List α
  | [] => [x]
  | y :: ys => if key y < key x then y :: insertLe key x ys else x :: y :: ys

/-- Stable sort by a natural-number key.  Python's `sorted` is specified
to be a stable sort by key and every stable sort by key computes the
same list, so this embeds `sorted(bugs, key=...)` of main.py line 141
exactly. -/
def sortByKey {α : Type} (key : α → Nat) : List α → List α
  | [] => []
  | x :: xs => insertLe key x (sortByKey key xs)

/-- The ranked list `sorted_bugs` of main.py line 141. -/
def sorted_bugs (bugs : List Bug) : List Bug :=
  sortByKey (fun b => severity_order b.severity) bugs

/-- How an analysis run ends, as observed by the `try` of main.py lines
87-107: the user interrupts (`KeyboardInterrupt`), the pipeline raises
(`Exception`), or the analysis completes with a bug list. -/
inductive RunEvent where
  | interrupted
  | failed (msg : String)
  | completed (bugs : List Bug)
deriving DecidableEq, Repr

/-- The exit status of `main` (main.py lines 57-165).  `env_ok` is the
`check_environment()` result, `target_exists` the `os.path.exists`
check on the resolved target (the no-argument default-file fallback also
exits 1 through this same check when the default file is missing).
`KeyboardInterrupt` runs `sys.exit(0)` (line 102), an exception
`sys.exit(1)` (line 107); a completed run falls through report
generation and ends with status 0 whether or not bugs were found. -/
def main_exit_code (env_ok : Bool) (target_exists : Bool) (ev : RunEvent) : Nat :=
  if !env_ok then 1
  else if !target_exists then 1
  else
    match ev with
    | .interrupted => 0
    | .failed _ => 1
    | .completed _ => 0

/-! ### Helper lemmas: traversal -/

/- Membership of a node's pre-order collection inside an ancestor's:
whatever `visit` collects on a subtree is a sublist of what it collects
on any tree containing that subtree. -/
mutual
theorem collectPre_sublist_of_mem {β : Type} (step : TSNode → List β) (m : TSNode) :
    ∀ (t : TSNode), m ∈ allNodes t → collectPre step m <+ collectPre step t
  | .node ty tx r er ch, h => by
    rw [allNodes, collectPre] at h
    rcases List.mem_append.mp h with h1 | h2
    · rcases List.mem_singleton.mp h1 with rfl
      exact List.Sublist.refl _
    · rw [collectPre]
      exact (collectPreList_sublist_of_mem step m ch h2).trans (List.sublist_append_right _ _)

theorem collectPreList_sublist_of_mem {β : Type} (step : TSNode → List β) (m : TSNode) :
    ∀ (l : List TSNode), m ∈ allNodesList l → collectPre step m <+ collectPreList step l
  | c :: cs, h => by
    rw [allNodesList, collectPreList] at h
    rcases List.mem_append.mp h with h1 | h2
    · exact (collectPre_sublist_of_mem step m c h1).trans (List.sublist_append_left _ _)
    · exact ((collectPreList_sublist_of_mem step m cs) h2).trans (List.sublist_append_right _ _)
end

theorem mem_allNodes_of_mem_children {m : TSNode} :
    ∀ (t : TSNode), m ∈ allNodesList t.children → m ∈ allNodes t := by
  intro t h
  cases t with
  | node ty tx r er ch =>
    rw [allNodes, collectPre]
    exact List.mem_append.mpr (Or.inr h)

/-! ### Helper lemmas: candidate matcher -/

theorem mem_matchCandidates {srcs : List SourceEvent} {sinks : List SinkEvent}
    {p : SourceEvent × SinkEvent} :
    p ∈ matchCandidates srcs sinks ↔
      p.1 ∈ srcs ∧ p.2 ∈ sinks ∧ p.1.var = p.2.var ∧ p.1.line < p.2.line := by
  unfold matchCandidates
  simp only [List.mem_flatMap, List.mem_filterMap]
  constructor
  · rintro ⟨na, hna, aa, haa, h⟩
    by_cases hc : na.var = aa.var ∧ na.line < aa.line
    · rw [if_pos hc] at h
      rcases Option.some.inj h with rfl
      exact ⟨hna, haa, hc.1, hc.2⟩
    · rw [if_neg hc] at h
      cases h
  · rintro ⟨h1, h2, h3, h4⟩
    exact ⟨p.1, h1, p.2, h2, by rw [if_pos ⟨h3, h4⟩]⟩

theorem filterMap_all_some_length {sinks : List SinkEvent} {s : SourceEvent}
    (h : ∀ k ∈ sinks, s.var = k.var ∧ s.line < k.line) :
    (sinks.filterMap (fun aa =>
       if s.var = aa.var ∧ s.line < aa.line then some (s, aa) else none)).length
      = sinks.length := by
  induction sinks with
  | nil => simp
  | cons k ks ih =>
    have hk := h k (List.mem_cons_self k ks)
    rw [List.filterMap_cons, if_pos hk]
    simp only [List.length_cons]
    rw [ih (fun k' hk' => h k' (List.mem_cons_of_mem _ hk'))]

theorem matchCandidates_full_length {v : String} {srcs : List SourceEvent}
    {sinks : List SinkEvent}
    (hs : ∀ s ∈ srcs, s.var = v) (hk : ∀ k ∈ sinks, k.var = v)
    (hl : ∀ s ∈ srcs, ∀ k ∈ sinks, s.line < k.line) :
    (matchCandidates srcs sinks).length = srcs.length * sinks.length := by
  induction srcs with
  | nil => simp [matchCandidates]
  | cons s ss ih =>
    have hinner : ∀ k ∈ sinks, s.var = k.var ∧ s.line < k.line := by
      intro k hkmem
      refine ⟨?_, hl s (List.mem_cons_self s ss) k hkmem⟩
      rw [hs s (List.mem_cons_self s ss), hk k hkmem]
    rw [matchCandidates, List.flatMap_cons]
    rw [List.length_append, filterMap_all_some_length hinner]
    have ihs := ih (fun s' hs' => hs s' (List.mem_cons_of_mem _ hs'))
      (fun s' hs' k hkmem => hl s' (List.mem_cons_of_mem _ hs') k hkmem)
    rw [matchCandidates] at ihs
    rw [ihs, List.length_cons, Nat.succ_mul, Nat.add_comm]

/-! ### Helper lemmas: sink deduplication -/

theorem sink_key_inj {e f : SinkEvent} (h : (e.var, e.line) = (f.var, f.line)) : e = f := by
  cases e
  cases f
  simpa using h

theorem dedupScan_append (seen : List SeenKey) (a b : List SinkEvent) :
    dedupScan seen (a ++ b) =
      ((dedupScan seen a).1 ++ (dedupScan (dedupScan seen a).2 b).1,
       (dedupScan (dedupScan seen a).2 b).2) := by
  induction a generalizing seen with
  | nil => simp [dedupScan]
  | cons e es ih =>
    by_cases h : (e.var, e.line) ∈ seen
    · simp only [List.cons_append, dedupScan, if_pos h]
      exact ih seen
    · simp only [List.cons_append, dedupScan, if_neg h, List.append_eq]
      rw [ih ((e.var, e.line) :: seen)]

theorem mem_dedupScan {l : List SinkEvent} {e : SinkEvent} :
    ∀ {seen : List SeenKey},
      e ∈ (dedupScan seen l).1 ↔ e ∈ l ∧ (e.var, e.line) ∉ seen := by
  induction l with
  | nil => intro seen; simp [dedupScan]
  | cons f fs ih =>
    intro seen
    by_cases h : (f.var, f.line) ∈ seen
    · rw [dedupScan, if_pos h, ih]
      constructor
      · rintro ⟨h1, h2⟩
        exact ⟨List.mem_cons_of_mem _ h1, h2⟩
      · rintro ⟨h1, h2⟩
        rcases List.mem_cons.mp h1 with rfl | h1'
        · exact absurd h h2
        · exact ⟨h1', h2⟩
    · simp only [dedupScan, if_neg h]
      constructor
      · intro hmem
        rcases List.mem_cons.mp hmem with rfl | hmem'
        · exact ⟨List.mem_cons_self _ _, h⟩
        · obtain ⟨h1, h2⟩ := ih.mp hmem'
          exact ⟨List.mem_cons_of_mem _ h1, fun hs => h2 (List.mem_cons_of_mem _ hs)⟩
      · rintro ⟨hmem, hns⟩
        rcases List.mem_cons.mp hmem with rfl | hmem'
        · exact List.mem_cons_self _ _
        · by_cases hk : (e.var, e.line) = (f.var, f.line)
          · rw [sink_key_inj hk]
            exact List.mem_cons_self _ _
          · refine List.mem_cons_of_mem _ (ih.mpr ⟨hmem', ?_⟩)
            intro hs
            rcases List.mem_cons.mp hs with hs' | hs'
            · exact hk hs'
            · exact hns hs' 

theorem dedupScan_keys_nodup (l : List SinkEvent) :
    ∀ (seen : List SeenKey),
      ((dedupScan seen l).1.map (fun e => (e.var, e.line))).Nodup := by
  induction l with
  | nil => intro seen; simp [dedupScan]
  | cons f fs ih =>
    intro seen
    by_cases h : (f.var, f.line) ∈ seen
    · rw [dedupScan, if_pos h]
      exact ih seen
    · rw [dedupScan, if_neg h]
      simp only [List.map_cons, List.nodup_cons]
      refine ⟨?_, ih _⟩
      intro hmem
      rcases List.mem_map.mp hmem with ⟨e, he, hk⟩
      have h2 := (mem_dedupScan.mp he).2
      exact h2 (by rw [hk]; exact List.mem_cons_self _ _)

/-! ### Helper lemmas: find_attribute_access as dedup of the naive scan -/

/- The per-node state update of `faa_visit` equals one `dedupScan` step
over the node's naive contribution. -/
theorem attr_step_node (ty tx : String) (r er : Nat) (ch : List TSNode) :
    attr_step (.node ty tx r er ch)
      = if ty = "attribute" then
          (match ch.find? (fun c => c.ty = "identifier") with
           | some c => [{ var := c.text, line := c.row + 1 }]
           | none => ([] : List SinkEvent))
        else [] := rfl

theorem faa_step_eq (ty tx : String) (r er : Nat) (ch : List TSNode) (st : FAAState) :
    faa_step ty ch st
      = (st.1 ++ (dedupScan st.2 (attr_step (.node ty tx r er ch))).1,
         (dedupScan st.2 (attr_step (.node ty tx r er ch))).2) := by
  rw [attr_step_node]
  by_cases hty : ty = "attribute"
  · rw [if_pos hty]
    cases hfind : ch.find? (fun c => c.ty = "identifier") with
    | none => simp [faa_step, hty, hfind, dedupScan]
    | some c =>
      by_cases hseen : (c.text, c.row + 1) ∈ st.2
      · simp [faa_step, hty, hfind, dedupScan, hseen]
      · simp [faa_step, hty, hfind, dedupScan, hseen]
  · rw [if_neg hty]
    simp [faa_step, hty, dedupScan]

mutual
theorem faa_visit_eq : ∀ (t : TSNode) (st : FAAState),
    faa_visit t st = (st.1 ++ (dedupScan st.2 (collectPre attr_step t)).1,
                      (dedupScan st.2 (collectPre attr_step t)).2)
  | .node ty tx r er ch, st => by
    rw [faa_visit]
    rw [faa_step_eq ty tx r er ch st]
    rw [faa_visit_list_eq ch _]
    rw [collectPre, dedupScan_append]
    simp [List.append_assoc]

theorem faa_visit_list_eq : ∀ (l : List TSNode) (st : FAAState),
    faa_visit_list l st = (st.1 ++ (dedupScan st.2 (collectPreList attr_step l)).1,
                           (dedupScan st.2 (collectPreList attr_step l)).2)
  | [], st => by
    simp [faa_visit_list, collectPreList, dedupScan]
  | c :: cs, st => by
    rw [faa_visit_list, faa_visit_eq c st, faa_visit_list_eq cs _]
    rw [collectPreList, dedupScan_append]
    simp [List.append_assoc]
end

theorem find_attribute_access_eq (n : TSNode) :
    find_attribute_access n = (dedupScan [] (collectPre attr_step n)).1 := by
  rw [find_attribute_access, faa_visit_eq]
  simp

theorem mem_find_attribute_access {n : TSNode} {e : SinkEvent} :
    e ∈ find_attribute_access n ↔ e ∈ collectPre attr_step n := by
  rw [find_attribute_access_eq, mem_dedupScan]
  simp

/-! ### Helper lemmas: stable sort -/

theorem insertLe_perm {α : Type} (key : α → Nat) (x : α) (l : List α) :
    insertLe key x l ~ x :: l := by
  induction l with
  | nil => exact List.Perm.refl _
  | cons y ys ih =>
    by_cases h : key y < key x
    · rw [insertLe, if_pos h]
      exact (ih.cons y).trans (List.Perm.swap x y ys)
    · rw [insertLe, if_neg h]

theorem sortByKey_perm {α : Type} (key : α → Nat) (l : List α) :
    sortByKey key l ~ l := by
  induction l with
  | nil => exact List.Perm.refl _
  | cons x xs ih =>
    rw [sortByKey]
    exact (insertLe_perm key x (sortByKey key xs)).trans (ih.cons x)

theorem insertLe_pairwise {α : Type} (key : α → Nat) (x : α) {l : List α}
    (h : l.Pairwise (fun a b => key a ≤ key b)) :
    (insertLe key x l).Pairwise (fun a b => key a ≤ key b) := by
  induction l with
  | nil => simp [insertLe]
  | cons y ys ih =>
    rcases List.pairwise_cons.mp h with ⟨hy, hys⟩
    by_cases hlt : key y < key x
    · rw [insertLe, if_pos hlt]
      refine List.pairwise_cons.mpr ⟨?_, ih hys⟩
      intro a ha
      have ha' : a = x ∨ a ∈ ys := by
        have := (insertLe_perm key x ys).mem_iff.mp ha
        simpa using this
      rcases ha' with rfl | ha'
      · exact le_of_lt hlt
      · exact hy a ha'
    · rw [insertLe, if_neg hlt]
      have hxy : key x ≤ key y := le_of_not_lt hlt
      refine List.pairwise_cons.mpr ⟨?_, h⟩
      intro a ha
      rcases List.mem_cons.mp ha with rfl | ha'
      · exact hxy
      · exact hxy.trans (hy a ha')

theorem sortByKey_pairwise {α : Type} (key : α → Nat) (l : List α) :
    (sortByKey key l).Pairwise (fun a b => key a ≤ key b) := by
  induction l with
  | nil => simp [sortByKey]
  | cons x xs ih =>
    rw [sortByKey]
    exact insertLe_pairwise key x ih

theorem filter_insertLe {α : Type} (key : α → Nat) (x : α) (l : List α) (k : Nat) :
    (insertLe key x l).filter (fun a => decide (key a = k)) =
      if key x = k then x :: l.filter (fun a => decide (key a = k))
      else l.filter (fun a => decide (key a = k)) := by
  induction l with
  | nil =>
    by_cases h : key x = k
    · simp [insertLe, List.filter, h]
    · simp [insertLe, List.filter, h]
  | cons y ys ih =>
    by_cases hlt : key y < key x
    · rw [insertLe, if_pos hlt]
      by_cases hx : key x = k
      · have hy : ¬ (key y = k) := by omega
        rw [if_pos hx]
        rw [List.filter_cons_of_neg (by simpa using hy), List.filter_cons_of_neg (by simpa using hy)]
        rw [ih, if_pos hx]
      · rw [if_neg hx]
        by_cases hy : key y = k
        · rw [List.filter_cons_of_pos (by simpa using hy), List.filter_cons_of_pos (by simpa using hy)]
          rw [ih, if_neg hx]
        · rw [List.filter_cons_of_neg (by simpa using hy), List.filter_cons_of_neg (by simpa using hy)]
          rw [ih, if_neg hx]
    · rw [insertLe, if_neg hlt]
      by_cases hx : key x = k
      · rw [if_pos hx]
        rw [List.filter_cons_of_pos (by simpa using hx)]
      · rw [if_neg hx]
        rw [List.filter_cons_of_neg (by simpa using hx)]

theorem filter_sortByKey {α : Type} (key : α → Nat) (l : List α) (k : Nat) :
    (sortByKey key l).filter (fun a => decide (key a = k)) =
      l.filter (fun a => decide (key a = k)) := by
  induction l with
  | nil => simp [sortByKey]
  | cons x xs ih =>
    rw [sortByKey, filter_insertLe]
    by_cases hx : key x = k
    · rw [if_pos hx, ih, List.filter_cons_of_pos (by simpa using hx)]
    · rw [if_neg hx, ih, List.filter_cons_of_neg (by simpa using hx)]

/-! ### Helper lemmas: oracle gateway and analyzer -/

theorem analyze_npd_path_failure {o : OracleOutcome} (h : o.isFailure = true) :
    (analyze_npd_path o).is_bug = false ∧ (analyze_npd_path o).has_dangerous_path = false ∧
    (analyze_npd_path o).severity = "Low" ∧ (analyze_npd_path o).error.isSome = true := by
  cases o with
  | parsed r => simp [OracleOutcome.isFailure] at h
  | callError m => simp [analyze_npd_path]
  | badStatus c m => simp [analyze_npd_path]
  | parseError m => simp [analyze_npd_path]

theorem matchCandidates_nil_right (srcs : List SourceEvent) :
    matchCandidates srcs [] = [] := by
  simp [matchCandidates]

theorem analyze_function_bugs (oracle : String → String → Nat → Nat → Verdict)
    (func : FuncUnit) (file_path : String) :
    (analyze_function oracle func file_path).1 =
      (matches_of func).filterMap (fun p =>
        if (oracle func.code p.1.var p.1.line p.2.line).is_bug then
          some (mkBug file_path func p (oracle func.code p.1.var p.1.line p.2.line))
        else none) := by
  rw [analyze_function, matches_of]
  by_cases h1 : (find_null_assignments func.node).isEmpty
  · rw [if_pos h1]
    rw [List.isEmpty_iff] at h1
    rw [h1]
    simp [matchCandidates]
  · rw [if_neg h1]
    by_cases h2 : (find_attribute_access func.node).isEmpty
    · rw [if_pos h2]
      rw [List.isEmpty_iff] at h2
      rw [h2, matchCandidates_nil_right]
      simp
    · rw [if_neg h2]
      by_cases h3 : (matchCandidates (find_null_assignments func.node)
          (find_attribute_access func.node)).isEmpty
      · rw [if_pos h3]
        rw [List.isEmpty_iff] at h3
        rw [h3]
        simp
      · rw [if_neg h3]

theorem analyze_function_calls (oracle : String → String → Nat → Nat → Verdict)
    (func : FuncUnit) (file_path : String) :
    (analyze_function oracle func file_path).2 =
      (matches_of func).map (fun p =>
        { func_code := func.code, var := p.1.var
          null_line := p.1.line, use_line := p.2.line }) := by
  rw [analyze_function, matches_of]
  by_cases h1 : (find_null_assignments func.node).isEmpty
  · rw [if_pos h1]
    rw [List.isEmpty_iff] at h1
    rw [h1]
    simp [matchCandidates]
  · rw [if_neg h1]
    by_cases h2 : (find_attribute_access func.node).isEmpty
    · rw [if_pos h2]
      rw [List.isEmpty_iff] at h2
      rw [h2, matchCandidates_nil_right]
      simp
    · rw [if_neg h2]
      by_cases h3 : (matchCandidates (find_null_assignments func.node)
          (find_attribute_access func.node)).isEmpty
      · rw [if_pos h3]
        rw [List.isEmpty_iff] at h3
        rw [h3]
        simp
      · rw [if_neg h3]

/-! ### Helper lemmas: sublists, flatMap and counting -/

theorem sublist_flatMap {α β : Type} {l₁ l₂ : List α} (h : l₁ <+ l₂) (f : α → List β) :
    l₁.flatMap f <+ l₂.flatMap f := by
  induction h with
  | slnil => simp
  | cons a h ih =>
    rw [List.flatMap_cons]
    exact ih.trans (List.sublist_append_right _ _)
  | cons₂ a h ih =>
    rw [List.flatMap_cons, List.flatMap_cons]
    exact ih.append_left _

theorem collectPre_eq {β : Type} (step : TSNode → List β) (n : TSNode) :
    collectPre step n = step n ++ collectPreList step n.children := by
  cases n with
  | node ty tx r er ch => rw [collectPre]; rfl

theorem collectPre_leaf {β : Type} (step : TSNode → List β) (n : TSNode)
    (h : n.children = []) : collectPre step n = step n := by
  rw [collectPre_eq, h, collectPreList]
  simp

theorem null_assign_step_ne {n : TSNode} (h : n.ty ≠ "assignment") :
    null_assign_step n = [] := by
  rw [null_assign_step, if_neg h]

/-! ### Concrete inputs used in the witnesses and counterexamples -/

/- The tree of spec scenario A, `def f():\n    x = None\n    return x.y`,
with the node shapes tree-sitter produces (rows are 0-based). -/
def ex_id_f : TSNode := .node "identifier" "f" 0 0 []
def ex_id_x1 : TSNode := .node "identifier" "x" 1 1 []
def ex_eq_tok : TSNode := .node "=" "=" 1 1 []
def ex_none_tok : TSNode := .node "none" "None" 1 1 []
def ex_assign : TSNode := .node "assignment" "x = None" 1 1 [ex_id_x1, ex_eq_tok, ex_none_tok]
def ex_id_x2 : TSNode := .node "identifier" "x" 2 2 []
def ex_dot : TSNode := .node "." "." 2 2 []
def ex_id_y : TSNode := .node "identifier" "y" 2 2 []
def ex_attr : TSNode := .node "attribute" "x.y" 2 2 [ex_id_x2, ex_dot, ex_id_y]
def ex_body : TSNode :=
  .node "block" "" 1 2
    [.node "expression_statement" "" 1 1 [ex_assign],
     .node "return_statement" "" 2 2 [ex_attr]]
def ex_fdef : TSNode := .node "function_definition" "" 0 2 [ex_id_f, ex_body]
def ex_func : FuncUnit :=
  { name := "f", start_line := 1, end_line := 3
    code := "def f():\n    x = None\n    return x.y", node := ex_fdef }

/- A nested member access `a.b.c` on one line: the outer `attribute` node
has the inner `attribute` node as its object child. -/
def exn_id_a : TSNode := .node "identifier" "a" 0 0 []
def exn_dot1 : TSNode := .node "." "." 0 0 []
def exn_id_b : TSNode := .node "identifier" "b" 0 0 []
def exn_inner : TSNode := .node "attribute" "a.b" 0 0 [exn_id_a, exn_dot1, exn_id_b]
def exn_dot2 : TSNode := .node "." "." 0 0 []
def exn_id_c : TSNode := .node "identifier" "c" 0 0 []
def exn_outer : TSNode := .node "attribute" "a.b.c" 0 0 [exn_inner, exn_dot2, exn_id_c]

/- Two member accesses of the same variable on the same line, `x.a + x.b`. -/
def ex2_attr1 : TSNode :=
  .node "attribute" "x.a" 0 0
    [.node "identifier" "x" 0 0 [], .node "." "." 0 0 [], .node "identifier" "a" 0 0 []]
def ex2_attr2 : TSNode :=
  .node "attribute" "x.b" 0 0
    [.node "identifier" "x" 0 0 [], .node "." "." 0 0 [], .node "identifier" "b" 0 0 []]
def ex2_parent : TSNode :=
  .node "binary_operator" "x.a + x.b" 0 0 [ex2_attr1, .node "+" "+" 0 0 [], ex2_attr2]

/- A function `f` with a nested function `g` whose body contains the only
sentinel assignment and member access (rows 0-based):
`def f():\n    def g():\n        y = None\n        return y.a`. -/
def c10_id_f : TSNode := .node "identifier" "f" 0 0 []
def c10_id_g : TSNode := .node "identifier" "g" 1 1 []
def c10_assign : TSNode :=
  .node "assignment" "y = None" 2 2
    [.node "identifier" "y" 2 2 [], .node "=" "=" 2 2 [], .node "none" "None" 2 2 []]
def c10_attr : TSNode :=
  .node "attribute" "y.a" 3 3
    [.node "identifier" "y" 3 3 [], .node "." "." 3 3 [], .node "identifier" "a" 3 3 []]
def c10_gblock : TSNode :=
  .node "block" "" 2 3
    [.node "expression_statement" "" 2 2 [c10_assign],
     .node "return_statement" "" 3 3 [c10_attr]]
def c10_gdef : TSNode := .node "function_definition" "" 1 3 [c10_id_g, c10_gblock]
def c10_fblock : TSNode := .node "block" "" 1 3 [c10_gdef]
def c10_fdef : TSNode := .node "function_definition" "" 0 3 [c10_id_f, c10_fblock]
def c10_root : TSNode := .node "module" "" 0 3 [c10_fdef]
def c10_lines : List String :=
  ["def f():", "    def g():", "        y = None", "        return y.a"]

/- Stub oracles for the witnesses. -/
def verdict_high : Verdict :=
  { has_dangerous_path := true, is_bug := true, severity := "High"
    path_description := some "when nothing intervenes y stays None"
    trigger_condition := some "always", reason := some "no guard", error := none }

def oracle_yes : String → String → Nat → Nat → Verdict := fun _ _ _ _ => verdict_high

def transport_fail : String → String → Nat → Nat → OracleOutcome :=
  fun _ _ _ _ => .callError "connection refused"

/- Bug records differing only in severity, for the ranking example. -/
def base_bug : Bug :=
  { bug_type := "Null Pointer Dereference (NPD)", file := "a.py", function := "f"
    var := "x", null_line := 2, use_line := 3, severity := "Low", description := ""
    trigger_condition := "无", reason := "", code_snippet := "" }
def bug_low : Bug := base_bug
def bug_critical : Bug := { base_bug with function := "g", severity := "Critical" }
def bug_high : Bug := { base_bug with function := "h", severity := "High" }

/-! ### Claims -/

/-- Claim C1: the candidate matcher emits exactly one Candidate for every
(source, sink) pair with identical variable and source line strictly
below sink line, and no others: membership in the emitted list is
characterised by exactly that condition, every emitted candidate has
`sourceLine < sinkLine`, and with `m` sources and `n` sinks on one
variable, all source lines below all sink lines, exactly `m * n`
candidates are produced. -/
theorem claim_C1_matcher_cross_product :
    (∀ (srcs : List SourceEvent) (sinks : List SinkEvent),
       ∀ p ∈ matchCandidates srcs sinks, p.1.var = p.2.var ∧ p.1.line < p.2.line)
    ∧ (∀ (srcs : List SourceEvent) (sinks : List SinkEvent) (p : SourceEvent × SinkEvent),
         p ∈ matchCandidates srcs sinks ↔
           p.1 ∈ srcs ∧ p.2 ∈ sinks ∧ p.1.var = p.2.var ∧ p.1.line < p.2.line)
    ∧ (∀ (v : String) (srcs : List SourceEvent) (sinks : List SinkEvent),
         (∀ s ∈ srcs, s.var = v) → (∀ k ∈ sinks, k.var = v) →
         (∀ s ∈ srcs, ∀ k ∈ sinks, s.line < k.line) →
         (matchCandidates srcs sinks).length = srcs.length * sinks.length) := by
  refine ⟨?_, ?_, ?_⟩
  · intro srcs sinks p hp
    have h := mem_matchCandidates.mp hp
    exact ⟨h.2.2.1, h.2.2.2⟩
  · intro srcs sinks p
    exact mem_matchCandidates
  · intro v srcs sinks hs hk hl
    exact matchCandidates_full_length hs hk hl

theorem claim_C1_witness :
    (matchCandidates [SourceEvent.mk "x" 1, SourceEvent.mk "x" 2]
        [SinkEvent.mk "x" 5, SinkEvent.mk "x" 6, SinkEvent.mk "x" 7]).length = 2 * 3 :=
  claim_C1_matcher_cross_product.2.2 "x" _ _ (by decide) (by decide) (by decide)

/-- Claim C2: the oracle gateway always returns a verdict: a parsed reply
has each absent required field (`has_dangerous_path`, `is_bug`,
`severity`) filled with its default (`false`, `false`, `"Low"`), and
every failure outcome (non-200 status, malformed JSON, raised call)
yields a no-bug `"Low"` verdict carrying an error annotation. -/
theorem claim_C2_verify_total_defaults :
    (∀ r : ReplyObj,
       analyze_npd_path (.parsed r) =
         { has_dangerous_path := r.has_dangerous_path.getD false
           is_bug := r.is_bug.getD false
           severity := r.severity.getD "Low"
           path_description := r.path_description
           trigger_condition := r.trigger_condition
           reason := r.reason
           error := none })
    ∧ (∀ o : OracleOutcome, o.isFailure = true →
         (analyze_npd_path o).is_bug = false ∧
         (analyze_npd_path o).has_dangerous_path = false ∧
         (analyze_npd_path o).severity = "Low" ∧
         (analyze_npd_path o).error.isSome = true) :=
  ⟨fun _ => rfl, fun _ h => analyze_npd_path_failure h⟩

theorem claim_C2_witness :
    (analyze_npd_path (OracleOutcome.callError "connection refused")).is_bug = false ∧
    (analyze_npd_path (OracleOutcome.callError "connection refused")).has_dangerous_path = false ∧
    (analyze_npd_path (OracleOutcome.callError "connection refused")).severity = "Low" ∧
    (analyze_npd_path (OracleOutcome.callError "connection refused")).error.isSome = true :=
  claim_C2_verify_total_defaults.2 _ (by decide)

/-- Claim C5: the sink-event list of `find_attribute_access` holds at
most one event per distinct `(variable, line)` key, and two member
accesses of one variable on one line (`x.a + x.b`) yield exactly one
event. -/
theorem claim_C5_sink_dedup :
    (∀ n : TSNode, ((find_attribute_access n).map (fun e => (e.var, e.line))).Nodup)
    ∧ find_attribute_access ex2_parent = [{ var := "x", line := 1 }] := by
  constructor
  · intro n
    rw [find_attribute_access_eq]
    exact dedupScan_keys_nodup _ _
  · decide

/-- Claim C7: with zero sentinel-assignment events `_analyze_function`
returns no bugs and makes no oracle calls (the sink scan is never even
consulted, since the result is fixed before it); whenever the match list
is empty the result is likewise `([], [])`; and a lone source strictly
after a lone sink produces zero candidates. -/
theorem claim_C7_empty_sources_zero_calls :
    (∀ (oracle : String → String → Nat → Nat → Verdict) (func : FuncUnit) (fp : String),
       find_null_assignments func.node = [] →
       analyze_function oracle func fp = ([], []))
    ∧ (∀ (oracle : String → String → Nat → Nat → Verdict) (func : FuncUnit) (fp : String),
       matches_of func = [] →
       analyze_function oracle func fp = ([], []))
    ∧ (∀ (v : String) (l1 l2 : Nat), l2 ≤ l1 →
       matchCandidates [{ var := v, line := l1 }] [{ var := v, line := l2 }] = []) := by
  refine ⟨?_, ?_, ?_⟩
  · intro oracle func fp h
    rw [analyze_function, h]
    rfl
  · intro oracle func fp h
    rw [Prod.ext_iff]
    constructor
    · rw [analyze_function_bugs, h]
      rfl
    · rw [analyze_function_calls, h]
      rfl
  · intro v l1 l2 h
    have : ¬ (l1 < l2) := by omega
    simp [matchCandidates, this]

theorem claim_C7_witness :
    matchCandidates [{ var := "x", line := 5 }] [{ var := "x", line := 3 }] = [] :=
  claim_C7_empty_sources_zero_calls.2.2 "x" 5 3 (by decide)

/-- Claim C3: a bug record is produced for a candidate exactly when its
verdict has `is_bug` true, and a function whose oracle transport fails
on every candidate produces no bug records, because every failure-path
verdict carries `is_bug = false`. -/
theorem claim_C3_finding_iff_confirmed :
    ∀ (oracle : String → String → Nat → Nat → Verdict) (func : FuncUnit) (fp : String),
      (∀ b ∈ (analyze_function oracle func fp).1,
         ∃ p ∈ matches_of func,
           (oracle func.code p.1.var p.1.line p.2.line).is_bug = true ∧
           b = mkBug fp func p (oracle func.code p.1.var p.1.line p.2.line))
      ∧ (∀ p ∈ matches_of func,
           (oracle func.code p.1.var p.1.line p.2.line).is_bug = true →
           mkBug fp func p (oracle func.code p.1.var p.1.line p.2.line)
             ∈ (analyze_function oracle func fp).1)
      ∧ (∀ transport : String → String → Nat → Nat → OracleOutcome,
           oracle = (fun c v a b => analyze_npd_path (transport c v a b)) →
           (∀ p ∈ matches_of func,
              (transport func.code p.1.var p.1.line p.2.line).isFailure = true) →
           (analyze_function oracle func fp).1 = []) := by
  intro oracle func fp
  refine ⟨?_, ?_, ?_⟩
  · intro b hb
    rw [analyze_function_bugs] at hb
    rcases List.mem_filterMap.mp hb with ⟨p, hp, heq⟩
    by_cases hbug : (oracle func.code p.1.var p.1.line p.2.line).is_bug = true
    · rw [if_pos hbug] at heq
      exact ⟨p, hp, hbug, (Option.some.inj heq).symm⟩
    · rw [if_neg hbug] at heq
      cases heq
  · intro p hp hbug
    rw [analyze_function_bugs]
    exact List.mem_filterMap.mpr ⟨p, hp, by rw [if_pos hbug]⟩
  · intro transport heq hfail
    subst heq
    rw [analyze_function_bugs]
    rw [List.filterMap_eq_nil_iff]
    intro p hp
    have h := (analyze_npd_path_failure (hfail p hp)).1
    rw [if_neg]
    rw [h]
    simp

theorem claim_C3_witness :
    mkBug "t.py" ex_func ({ var := "x", line := 2 }, { var := "x", line := 3 })
        (oracle_yes ex_func.code "x" 2 3)
      ∈ (analyze_function oracle_yes ex_func "t.py").1 :=
  (claim_C3_finding_iff_confirmed oracle_yes ex_func "t.py").2.1
    ({ var := "x", line := 2 }, { var := "x", line := 3 }) (by decide) (by decide)

/-- Claim C8: severity ranking is a total and stable order: the ranked
list is a permutation of the input, pairwise ordered by the key
Critical 0, High 1, Medium 2, Low 3, unknown 4, each severity class
keeps its original relative order, and findings with severities
[Low, Critical, High] rank as [Critical, High, Low]. -/
theorem claim_C8_severity_ranking :
    (∀ bugs : List Bug, sorted_bugs bugs ~ bugs)
    ∧ (∀ bugs : List Bug,
        (sorted_bugs bugs).Pairwise
          (fun a b => severity_order a.severity ≤ severity_order b.severity))
    ∧ (∀ (bugs : List Bug) (k : Nat),
        (sorted_bugs bugs).filter (fun b => decide (severity_order b.severity = k)) =
          bugs.filter (fun b => decide (severity_order b.severity = k)))
    ∧ severity_order "Critical" = 0 ∧ severity_order "High" = 1
    ∧ severity_order "Medium" = 2 ∧ severity_order "Low" = 3
    ∧ (∀ s : String, s ≠ "Critical" → s ≠ "High" → s ≠ "Medium" → s ≠ "Low" →
        severity_order s = 4)
    ∧ sorted_bugs [bug_low, bug_critical, bug_high] = [bug_critical, bug_high, bug_low] := by
  refine ⟨?_, ?_, ?_, rfl, rfl, rfl, rfl, ?_, by decide⟩
  · intro bugs
    exact sortByKey_perm _ bugs
  · intro bugs
    exact sortByKey_pairwise _ bugs
  · intro bugs k
    exact filter_sortByKey _ bugs k
  · intro s h1 h2 h3 h4
    rw [severity_order, if_neg h1, if_neg h2, if_neg h3, if_neg h4]

theorem claim_C8_witness : severity_order "Unknown" = 4 :=
  claim_C8_severity_ranking.2.2.2.2.2.2.2.1 "Unknown"
    (by decide) (by decide) (by decide) (by decide)

/-- Claim C9 counterexample: the claim says a keyboard interrupt during
analysis exits with non-zero status, but `main` runs `sys.exit(0)` on
`KeyboardInterrupt` (main.py line 102): with the environment check
passed and the target present, the interrupt exit status is 0. -/
theorem claim_C9_counterexample :
    main_exit_code true true RunEvent.interrupted = 0 := rfl

/-- Claim C9 amended: an interrupted run exits with status zero; the
program exits non-zero when the target file or directory is missing, on
an unrecoverable pipeline exception, and when the environment check
fails; a completed run exits zero whether or not findings were
produced. -/
theorem claim_C9_amended_exit_codes :
    main_exit_code true true RunEvent.interrupted = 0
    ∧ (∀ ev : RunEvent, main_exit_code true false ev = 1)
    ∧ (∀ m : String, main_exit_code true true (RunEvent.failed m) = 1)
    ∧ (∀ bugs : List Bug, main_exit_code true true (RunEvent.completed bugs) = 0)
    ∧ (∀ ev : RunEvent, main_exit_code false true ev = 1) :=
  ⟨rfl, fun _ => rfl, fun _ => rfl, fun _ => rfl, fun _ => rfl⟩

/-- Claim C4 counterexample: the claim says a nested member access inside
an already-matched access node is never re-reported as a separate sink
base, but on `a.b.c` the traversal recurses into the matched outer node,
matches the inner `attribute` node and reports its base `a` as a second
sink event (the outer node meanwhile records `c`, the first identifier
among its direct children, which is the attribute name and not the
base). -/
theorem claim_C4_counterexample :
    find_attribute_access exn_outer = [{ var := "c", line := 1 }, { var := "a", line := 1 }]
    ∧ { var := "a", line := 1 } ∈ find_attribute_access exn_outer
    ∧ (find_attribute_access exn_outer).length = 2 := by decide

/-- Claim C4 amended: for each member-access node the scan of its direct
children stops at the first `identifier` child, which is recorded as the
access base; the traversal still recurses into the matched node's
children, so every nested member access is itself matched and reported,
subject only to `(variable, line)` deduplication: the extracted sink
list equals the key-deduplication of the naive pre-order collection that
takes one event per `attribute` node. -/
theorem claim_C4_amended_first_ident_and_recursion :
    (∀ n : TSNode, find_attribute_access n = (dedupScan [] (collectPre attr_step n)).1)
    ∧ (∀ (tx : String) (r er : Nat) (ch : List TSNode) (c0 : TSNode),
         ch.find? (fun x => x.ty = "identifier") = some c0 →
         attr_step (.node "attribute" tx r er ch) = [{ var := c0.text, line := c0.row + 1 }]) := by
  constructor
  · exact find_attribute_access_eq
  · intro tx r er ch c0 hfind
    rw [attr_step_node, if_pos rfl, hfind]

theorem claim_C4_witness :
    attr_step exn_inner = [{ var := "a", line := 1 }] :=
  claim_C4_amended_first_ident_and_recursion.2 "a.b" 0 0 [exn_id_a, exn_dot1, exn_id_b]
    exn_id_a rfl

/-- Claim C6: on an assignment node of the grammar shape
`[target, "=", value]` (with the target not the literal `none`, which
the grammar guarantees), a source event is produced exactly when the
value is syntactically the `none` literal and the target is a simple
`identifier`, and the event carries the target's text and line; nodes of
any other type, in particular `augmented_assignment`, contribute no
source event; and on such a node with leaf children the whole
`find_null_assignments` output is exactly that per-node contribution. -/
theorem claim_C6_sentinel_assignment :
    (∀ (tx : String) (r er : Nat) (l eq rhs : TSNode),
       eq.ty = "=" → l.ty ≠ "none" →
       null_assign_step (.node "assignment" tx r er [l, eq, rhs]) =
         (if l.ty = "identifier" ∧ rhs.ty = "none"
          then [{ var := l.text, line := l.row + 1 }] else []))
    ∧ (∀ n : TSNode, n.ty ≠ "assignment" → null_assign_step n = [])
    ∧ (∀ (tx : String) (r er : Nat) (l eq rhs : TSNode),
       eq.ty = "=" → l.ty ≠ "none" →
       l.children = [] → eq.children = [] → rhs.children = [] →
       l.ty ≠ "assignment" → rhs.ty ≠ "assignment" →
       find_null_assignments (.node "assignment" tx r er [l, eq, rhs]) =
         null_assign_step (.node "assignment" tx r er [l, eq, rhs])) := by
  refine ⟨?_, ?_, ?_⟩
  · intro tx r er l eq rhs heq hlnone
    cases l with
    | node lty ltx lr ler lch =>
    cases eq with
    | node ety etx er2 eer ech =>
    cases rhs with
    | node rty rtx rr rer rch =>
    simp only [TSNode.ty] at heq hlnone
    subst heq
    rw [null_assign_step]
    simp only [TSNode.ty, TSNode.children, TSNode.text, TSNode.row, if_pos rfl,
      List.any_cons, List.any_nil, List.foldl_cons, List.foldl_nil]
    by_cases hl : lty = "identifier" <;> by_cases hr : rty = "none"
    · subst hl
      subst hr
      simp [hlnone]
    · subst hl
      by_cases hri : rty = "identifier"
      · subst hri
        simp [hlnone, hr]
      · simp [hlnone, hr, hri]
    · subst hr
      simp [hlnone, hl]
    · by_cases hri : rty = "identifier"
      · subst hri
        simp [hlnone, hl, hr]
      · simp [hlnone, hl, hr, hri]
  · intro n h
    exact null_assign_step_ne h
  · intro tx r er l eq rhs heq hlnone hlc heqc hrc hla hra
    have heqa : eq.ty ≠ "assignment" := by rw [heq]; decide
    rw [find_null_assignments, collectPre_eq]
    simp only [TSNode.children]
    rw [collectPreList, collectPreList, collectPreList, collectPreList]
    rw [collectPre_leaf _ l hlc, collectPre_leaf _ eq heqc, collectPre_leaf _ rhs hrc]
    rw [null_assign_step_ne hla, null_assign_step_ne heqa, null_assign_step_ne hra]
    simp

theorem claim_C6_witness :
    null_assign_step ex_assign = [{ var := "x", line := 2 }] := by
  have h := claim_C6_sentinel_assignment.1 "x = None" 1 1 ex_id_x1 ex_eq_tok ex_none_tok
    (by decide) (by decide)
  simpa [ex_id_x1, ex_eq_tok, ex_none_tok, TSNode.ty, TSNode.text, TSNode.row] using h

/-- Claim C10: for a function definition `g` nested inside a function
definition `f` (both enumerated as units because extraction recurses
through the whole tree), every candidate arising from `g`'s subtree is
also a candidate of `f`'s unit — sources because the source traversal
collects over the full subtree, sinks because membership in the
deduplicated sink list is preserved by enlarging the subtree — so the
file-level oracle-call list contains at least two calls carrying that
candidate's variable and line pair, one per enclosing unit. -/
theorem claim_C10_nested_function_double_submission :
    ∀ (oracle : String → String → Nat → Nat → Verdict)
      (tree : TSNode) (lines : List String) (fp : String)
      (f g : TSNode) (p : SourceEvent × SinkEvent),
      f ∈ allNodes tree →
      g ∈ allNodesList f.children →
      f.ty = "function_definition" →
      g.ty = "function_definition" →
      (f.children.find? (fun c => c.ty = "identifier")).isSome = true →
      (g.children.find? (fun c => c.ty = "identifier")).isSome = true →
      p ∈ matchCandidates (find_null_assignments g) (find_attribute_access g) →
      2 ≤ (analyze_file oracle tree lines fp).2.countP
            (fun c => decide (c.var = p.1.var ∧ c.null_line = p.1.line ∧
                              c.use_line = p.2.line)) := by
  intro oracle tree lines fp f g p hf hg hfty hgty hfid hgid hp
  obtain ⟨nf, hnf⟩ := Option.isSome_iff_exists.mp hfid
  obtain ⟨ng, hng⟩ := Option.isSome_iff_exists.mp hgid
  set uf : FuncUnit :=
    { name := nf.text, start_line := f.row + 1, end_line := f.endRow + 1
      code := String.intercalate "\n" ((lines.drop f.row).take (f.endRow + 1 - f.row))
      node := f } with huf
  set ug : FuncUnit :=
    { name := ng.text, start_line := g.row + 1, end_line := g.endRow + 1
      code := String.intercalate "\n" ((lines.drop g.row).take (g.endRow + 1 - g.row))
      node := g } with hug
  have hfstep : func_step lines f = [uf] := by
    rw [func_step, if_pos hfty, hnf]
  have hgstep : func_step lines g = [ug] := by
    rw [func_step, if_pos hgty, hng]
  -- both units appear in the extracted unit list, `f`'s unit first
  have hgsub : [ug] <+ collectPre (func_step lines) g := by
    rw [collectPre_eq, hgstep]
    exact List.sublist_append_left [ug] _
  have h2 : [ug] <+ collectPreList (func_step lines) f.children :=
    hgsub.trans (collectPreList_sublist_of_mem (func_step lines) g f.children hg)
  have h3 : [uf, ug] <+ collectPre (func_step lines) f := by
    rw [collectPre_eq, hfstep, List.singleton_append]
    exact h2.cons₂ uf
  have h4 : [uf, ug] <+ extract_functions tree lines :=
    h3.trans (collectPre_sublist_of_mem (func_step lines) f tree hf)
  -- the candidate transfers from g's unit to f's unit
  obtain ⟨hps, hpk, hpv, hpl⟩ := mem_matchCandidates.mp hp
  have hgf : g ∈ allNodes f := mem_allNodes_of_mem_children f hg
  have hsrc : p.1 ∈ find_null_assignments f :=
    (collectPre_sublist_of_mem null_assign_step g f hgf).subset hps
  have hsink : p.2 ∈ find_attribute_access f := by
    rw [mem_find_attribute_access]
    rw [mem_find_attribute_access] at hpk
    exact (collectPre_sublist_of_mem attr_step g f hgf).subset hpk
  have hpg : p ∈ matches_of ug := hp
  have hpf : p ∈ matches_of uf :=
    mem_matchCandidates.mpr ⟨hsrc, hsink, hpv, hpl⟩
  -- counting
  have hcalls : (analyze_file oracle tree lines fp).2 =
      (extract_functions tree lines).flatMap (fun u => (analyze_function oracle u fp).2) :=
    rfl
  have h5 : ([uf, ug].flatMap (fun u => (analyze_function oracle u fp).2))
      <+ (analyze_file oracle tree lines fp).2 := by
    rw [hcalls]
    exact sublist_flatMap h4 _
  have hcount_unit : ∀ u : FuncUnit, p ∈ matches_of u →
      1 ≤ (analyze_function oracle u fp).2.countP
            (fun c => decide (c.var = p.1.var ∧ c.null_line = p.1.line ∧
                              c.use_line = p.2.line)) := by
    intro u hu
    rw [analyze_function_calls]
    refine Nat.succ_le_of_lt (List.countP_pos_iff.mpr ?_)
    refine ⟨_, List.mem_map_of_mem _ hu, ?_⟩
    simp
  have h6 := List.Sublist.countP_le
    (fun c => decide (c.var = p.1.var ∧ c.null_line = p.1.line ∧ c.use_line = p.2.line)) h5
  rw [List.flatMap_cons, List.flatMap_cons, List.flatMap_nil, List.append_nil,
    List.countP_append] at h6
  have hcf := hcount_unit uf hpf
  have hcg := hcount_unit ug hpg
  omega

theorem claim_C10_witness :
    2 ≤ (analyze_file oracle_yes c10_root c10_lines "t.py").2.countP
          (fun c => decide (c.var = "y" ∧ c.null_line = 3 ∧ c.use_line = 4)) :=
  claim_C10_nested_function_double_submission oracle_yes c10_root c10_lines "t.py"
    c10_fdef c10_gdef ({ var := "y", line := 3 }, { var := "y", line := 4 })
    (List.Mem.tail _ (List.Mem.head _))
    (List.Mem.tail _ (List.Mem.tail _ (List.Mem.head _)))
    rfl rfl rfl rfl (by decide)
